import Mathlib

/-!
# commit-writer: verification of the orchestration core

A shallow embedding of the Go tool `commit-writer` (`main.go`): a CLI that
turns a git diff into a styled commit message by chaining two Ollama calls.
Strings are modelled as `List Char` (`Str`); the HTTP transport, the git
subprocess and the file system appear as oracles in an explicit environment,
so the orchestration (retry policy, save/load short-circuit, exit codes,
message sink) is a pure function from the environment to a run result.

Functions that Go implements with unbounded scans (`strings.ReplaceAll`, the
fence-stripping regex, `strconv.Unquote`) are written with an explicit fuel
argument equal to the input length; every step consumes at least one
character, so the fuel never runs out and the kernel can evaluate them.
-/

/-- Strings as character lists (Go strings, at rune granularity). -/
abbrev Str := List Char

/-- `unicode.IsSpace`: the White_Space code points, as listed in the Go
`unicode` tables. Used by `strings.TrimSpace`. -/
def isSpaceChar (c : Char) : Bool :=
  let n := c.toNat
  n == 9 || n == 10 || n == 11 || n == 12 || n == 13 || n == 32 ||
  n == 0x85 || n == 0xA0 || n == 0x1680 ||
  (0x2000 ≤ n && n ≤ 0x200A) || n == 0x2028 || n == 0x2029 ||
  n == 0x202F || n == 0x205F || n == 0x3000

/-- `strings.TrimSpace`: drop leading and trailing white space. -/
def trimSpace (s : Str) : Str :=
  ((s.dropWhile isSpaceChar).reverse.dropWhile isSpaceChar).reverse

/-- `strings.HasPrefix pat s` written over lists: does `s` begin with `pat`?
(The pattern is the first argument.) -/
def startsWith : Str → Str → Bool
  | [], _ => true
  | _ :: _, [] => false
  | p :: ps, c :: cs => p == c && startsWith ps cs

/-- `strings.ReplaceAll s (p :: ps) rep`: replace every non-overlapping
occurrence of the (non-empty) pattern, scanning left to right.  Fuelled;
`replaceAll` below supplies fuel equal to the input length, which suffices
because every step consumes at least one character. -/
def replaceAllF (p : Char) (ps rep : Str) : Nat → Str → Str
  | 0, s => s
  | _ + 1, [] => []
  | n + 1, c :: cs =>
    if startsWith (p :: ps) (c :: cs) then
      rep ++ replaceAllF p ps rep n (cs.drop ps.length)
    else
      c :: replaceAllF p ps rep n cs

/-- `strings.ReplaceAll` with a non-empty pattern `p :: ps`. -/
def replaceAll (p : Char) (ps rep : Str) (s : Str) : Str :=
  replaceAllF p ps rep s.length s

/-- The backquote character (U+0060), written numerically. -/
def tickChar : Char := Char.ofNat 96

/-- A triple backquote marker. -/
def tick3 : Str := [tickChar, tickChar, tickChar]

/-- The regex character class `[a-zA-Z0-9_-]` of the fence pattern. -/
def isWordChar (c : Char) : Bool :=
  c.isAlphanum || c == '_' || c == '-'

/-- Split `l` at its first triple-backquote marker: `some (before, after)`
with `l = before ++ tick3 ++ after` and no marker inside `before`;
`none` when no marker occurs.  This is the lazy `(.*?)` of the fence regex. -/
def splitAtTriple : Str → Option (Str × Str)
  | [] => none
  | c :: cs =>
    if startsWith tick3 (c :: cs) then some ([], cs.drop 2)
    else (splitAtTriple cs).map (fun r => (c :: r.1, r.2))

/-- Try to match the fence regex `(?s)((tick3))[a-zA-Z0-9_-]*\n(.*?)((tick3))`
at the start of `s`: on success return the captured inner text and the
remainder after the closing marker. -/
def tryFence (s : Str) : Option (Str × Str) :=
  if startsWith tick3 s then
    match (s.drop 3).dropWhile isWordChar with
    | '\n' :: body => splitAtTriple body
    | _ => none
  else none

/-- `fenceRe.ReplaceAllString s "$1"`: replace every fenced block with its
inner content, scanning left to right (fuelled like `replaceAllF`). -/
def fenceReplaceF : Nat → Str → Str
  | 0, s => s
  | _ + 1, [] => []
  | n + 1, c :: cs =>
    match tryFence (c :: cs) with
    | some r => r.1 ++ fenceReplaceF n r.2
    | none => c :: fenceReplaceF n cs

/-- Fence replacement at fuel `s.length` (the Go code guards this with
`MatchString`, which only skips the call when it would be the identity). -/
def fenceReplace (s : Str) : Str :=
  fenceReplaceF s.length s

/-- Value of a hexadecimal digit (code points 48-57, 97-102, 65-70). -/
def hexVal (c : Char) : Option Nat :=
  let n := c.toNat
  if 48 ≤ n && n ≤ 57 then some (n - 48)
  else if 97 ≤ n && n ≤ 102 then some (n - 87)
  else if 65 ≤ n && n ≤ 70 then some (n - 55)
  else none

/-- Value of an octal digit (code points 48-55). -/
def octVal (c : Char) : Option Nat :=
  let n := c.toNat
  if 48 ≤ n && n ≤ 55 then some (n - 48) else none

/-- `strconv.UnquoteChar`: decode one character of a quoted Go literal body.
`c :: cs` is the remaining body; returns the decoded character and the count
of extra characters consumed from `cs` (the total consumed is that plus one).
Unescaped newlines are rejected, as in `strconv.unquote`. -/
def unquoteChar (quote : Char) (c : Char) (cs : Str) : Option (Char × Nat) :=
  if c == quote then none
  else if c == '\n' then none
  else if c != '\\' then some (c, 0)
  else
    match cs with
    | [] => none
    | e :: rest =>
      if e == 'a' then some (Char.ofNat 7, 1)
      else if e == 'b' then some (Char.ofNat 8, 1)
      else if e == 'f' then some (Char.ofNat 12, 1)
      else if e == 'n' then some ('\n', 1)
      else if e == 'r' then some ('\r', 1)
      else if e == 't' then some ('\t', 1)
      else if e == 'v' then some (Char.ofNat 11, 1)
      else if e == '\\' then some ('\\', 1)
      else if e == '\'' then (if quote == '\'' then some ('\'', 1) else none)
      else if e == '"' then (if quote == '"' then some ('"', 1) else none)
      else if e == 'x' then
        match rest with
        | h1 :: h2 :: _ =>
          match hexVal h1, hexVal h2 with
          | some v1, some v2 => some (Char.ofNat (16 * v1 + v2), 3)
          | _, _ => none
        | _ => none
      else if ('0' ≤ e && e ≤ '7') then
        match rest with
        | o2 :: o3 :: _ =>
          match octVal e, octVal o2, octVal o3 with
          | some d1, some d2, some d3 =>
            let v := 64 * d1 + 8 * d2 + d3
            if v < 256 then some (Char.ofNat v, 3) else none
          | _, _, _ => none
        | _ => none
      else if e == 'u' then
        match rest with
        | h1 :: h2 :: h3 :: h4 :: _ =>
          match hexVal h1, hexVal h2, hexVal h3, hexVal h4 with
          | some v1, some v2, some v3, some v4 =>
            let v := 4096 * v1 + 256 * v2 + 16 * v3 + v4
            if v < 0xD800 || (0xE000 ≤ v && v ≤ 0x10FFFF) then
              some (Char.ofNat v, 5)
            else none
          | _, _, _, _ => none
        | _ => none
      else if e == 'U' then
        match rest with
        | h1 :: h2 :: h3 :: h4 :: h5 :: h6 :: h7 :: h8 :: _ =>
          match hexVal h1, hexVal h2, hexVal h3, hexVal h4,
                hexVal h5, hexVal h6, hexVal h7, hexVal h8 with
          | some v1, some v2, some v3, some v4,
            some v5, some v6, some v7, some v8 =>
            let v := 16 ^ 7 * v1 + 16 ^ 6 * v2 + 16 ^ 5 * v3 + 16 ^ 4 * v4 +
                     4096 * v5 + 256 * v6 + 16 * v7 + v8
            if v < 0xD800 || (0xE000 ≤ v && v ≤ 0x10FFFF) then
              some (Char.ofNat v, 9)
            else none
          | _, _, _, _, _, _, _, _ => none
        | _ => none
      else none

/-- Decode the body of a quoted literal up to and including the terminating
quote, which must end the input (`strconv.Unquote` rejects a non-empty
remainder).  Fuelled; each step consumes at least one character. -/
def unquoteBodyF (quote : Char) : Nat → Str → Option Str
  | 0, _ => none
  | _ + 1, [] => none
  | n + 1, c :: cs =>
    if c == quote then (if cs.isEmpty then some [] else none)
    else
      match unquoteChar quote c cs with
      | none => none
      | some r => (unquoteBodyF quote n (cs.drop r.2)).map (r.1 :: ·)

/-- `strconv.Unquote` restricted to the straight-quote and single-quote
forms the caller can reach (`cleanModelOutput` only calls it when the first
and last characters are `"` or `'`).  A single-quoted literal must decode to
exactly one character. -/
def goUnquote (s : Str) : Option Str :=
  match s with
  | [] => none
  | q :: rest =>
    if q == '"' || q == '\'' then
      match unquoteBodyF q (rest.length + 1) rest with
      | none => none
      | some out => if q == '\'' && out.length != 1 then none else some out
    else none

/-- The guard of the unquoting step: the whole (trimmed) string is wrapped
in a matching pair of straight or single quotes. -/
def quoteWrapped (s : Str) : Bool :=
  decide (2 ≤ s.length) &&
  ((s.head? == some '"' && s.getLast? == some '"') ||
   (s.head? == some '\'' && s.getLast? == some '\''))

/-- `cleanModelOutput`: trim; unquote a fully quoted body when possible;
replace fenced blocks by their inner content; drop stray triple-backquote
markers; normalize CRLF to LF; trim again. -/
def cleanModelOutput (s : Str) : Str :=
  let s1 := trimSpace s
  let s2 :=
    if quoteWrapped s1 then
      match goUnquote s1 with
      | some u => u
      | none => s1
    else s1
  let s3 := fenceReplace s2
  let s4 := replaceAll tickChar [tickChar, tickChar] [] s3
  let s5 := replaceAll '\r' ['\n'] ['\n'] s4
  trimSpace s5

/-! ## Label stripping (`stripLabels`) -/

/-- `strings.ToLower`, restricted to the simple case mappings that can
produce a character of the ASCII labels `title:` and `body:` (the ASCII
range plus U+0130 and U+212A); all other characters are fixed, which agrees
with Go on the prefix tests below. -/
def toLowerChar (c : Char) : Char :=
  if 'A' ≤ c && c ≤ 'Z' then Char.ofNat (c.toNat + 32)
  else if c.toNat == 0x130 then 'i'
  else if c.toNat == 0x212A then 'k'
  else c

/-- One iteration of the `stripLabels` loop: trim the line; if its
lowercase form starts with `title:` or `body:`, drop the label and trim;
otherwise keep the original line. -/
def stripLine (line : Str) : Str :=
  let trimmed := trimSpace line
  let low := trimmed.map toLowerChar
  if startsWith "title:".toList low then trimSpace (trimmed.drop 6)
  else if startsWith "body:".toList low then trimSpace (trimmed.drop 5)
  else line

/-- Does a line carry a recognized label, i.e. does its trimmed, lowercased
form start with `title:` or `body:`? -/
def hasLabel (line : Str) : Bool :=
  let low := (trimSpace line).map toLowerChar
  startsWith "title:".toList low || startsWith "body:".toList low

/-- `strings.Split s "\n"` for a one-character separator. -/
def splitOnChar (sep : Char) : Str → List Str
  | [] => [[]]
  | c :: cs =>
    let r := splitOnChar sep cs
    if c == sep then [] :: r
    else
      match r with
      | h :: t => (c :: h) :: t
      | [] => [[c]]

/-- `strings.Join lines "\n"`. -/
def joinLines : List Str → Str
  | [] => []
  | [l] => l
  | l :: l2 :: ls => l ++ '\n' :: joinLines (l2 :: ls)

/-- `stripLabels`: split on newlines, strip recognized labels per line,
join back with newlines. -/
def stripLabels (s : Str) : Str :=
  joinLines ((splitOnChar '\n' s).map stripLine)

/-! ## Backend client (`callOllama`): response stream decoding -/

/-- One decoded JSON object of the newline-delimited response stream. -/
structure OllamaChunk where
  response : Str
  done : Bool
deriving DecidableEq

/-- One decoder step: either a well-formed object or a malformed one (a
JSON syntax error at that point of the stream). -/
inductive DecodeItem where
  | chunk (c : OllamaChunk)
  | malformed
deriving DecidableEq

/-- The decode loop of `callOllama`: `result += o.Response` per object,
stopping at end of input; a malformed object aborts with a decode error. -/
def decodeLoop (acc : Str) : List DecodeItem → Except Str Str
  | [] => Except.ok acc
  | DecodeItem.malformed :: _ => Except.error "failed to decode response".toList
  | DecodeItem.chunk c :: rest => decodeLoop (acc ++ c.response) rest

/-- The decoded text of a successful response stream. -/
def decodeStream (items : List DecodeItem) : Except Str Str :=
  decodeLoop [] items

/-- The in-order concatenation of the `response` fragments. -/
def joinResponses : List DecodeItem → Str
  | [] => []
  | DecodeItem.chunk c :: rest => c.response ++ joinResponses rest
  | DecodeItem.malformed :: rest => joinResponses rest

/-- Rewrite every `done` flag of a stream through `f`, leaving the
`response` fragments and the malformed positions unchanged. -/
def mapDone (f : Bool → Bool) : DecodeItem → DecodeItem
  | DecodeItem.chunk c => DecodeItem.chunk ⟨c.response, f c.done⟩
  | DecodeItem.malformed => DecodeItem.malformed

/-- `callOllama` after the POST: an HTTP status of 400 or above is an
error carrying status and body; otherwise the stream is decoded and the
concatenation is cleaned and trimmed. -/
def callOllamaResult (status : Nat) (items : List DecodeItem) : Except Str Str :=
  if 400 ≤ status then Except.error "ollama error".toList
  else
    match decodeStream items with
    | Except.error e => Except.error e
    | Except.ok r => Except.ok (trimSpace (cleanModelOutput r))

/-- The HTTP client timeout of `callOllama`, in seconds
(`http.Client\x7bTimeout: 60 * time.Second\x7d`). -/
def callOllamaTimeoutSeconds : Nat := 60

/-- The default `--timeout` value documented in the repository README, in
seconds ("Default: 300 (5 minutes)"). -/
def documentedDefaultTimeoutSeconds : Nat := 300

/-! ## Two-stage pipeline orchestrator (`main`) -/

/-- The command-line configuration of one run (after flag parsing and the
`OLLAMA_URL` defaulting; the URL and model names do not influence the
orchestration and are kept only where a prompt embeds them). -/
structure Config where
  loadSummary : Str
  saveSummary : Str
  hookFile : Str
  forceWrite : Bool
  noLabels : Bool
  tone : Str

/-- Failure injection for the file-system side effects of the run:
`os.WriteFile`, `os.OpenFile(O_APPEND)` and the append `WriteString`. -/
structure SinkIO where
  writeFails : Str → Bool
  openAppendFails : Str → Bool
  appendWriteFails : Str → Bool

/-- The external collaborators of one run.  `summResult prompt k` is the
outcome of the k-th summarizer attempt (`callOllama`'s return value: the
cleaned text, or an error and the empty string); `styleResult prompt` the
styling call's outcome; `fs` the file contents visible to `os.ReadFile`,
`os.Stat` and the sink. -/
structure Env where
  probeErr : Option Str
  diffResult : Except Str Str
  summResult : Str → Nat → Except Str Str
  styleResult : Str → Except Str Str
  fs : Str → Option Str
  sink : SinkIO

/-- The observable calls of one run, in order. -/
inductive Event where
  | probe
  | diffAcq
  | summCall (attempt : Nat)
  | styleCall
  | loadSum (path : Str)
  | saveSum (path : Str) (ok : Bool)
  | hookOpen
  | hookAppend
  | hookWrite
deriving DecidableEq

/-- The outcome of one run: the `os.Exit` code when the run terminated
early (`none` on normal completion), the call trace, the summary consumed
by the styling stage, the message printed to stdout, and the final file
system. -/
structure RunResult where
  exitCode : Option Nat
  events : List Event
  summary : Option Str
  printed : Option Str
  fs : Str → Option Str

/-- The fact-extraction prompt built around the diff (`summaryPrompt`,
with the appended OUTPUT FORMAT block). -/
def summaryPrompt (diff : Str) : Str :=
  "Summarize the following git diff with strict factual accuracy.\nProduce TWO sections:\n1. A short commit title (max 60 chars)\n2. A 3-40 line commit body describing the key changes.\n\nRules:\n- Title should be imperative tense.\n- Body should describe files, functions, and intent.\n- Do NOT invent or hallucinate.\n- Keep it concise.\n\nDiff:\n".toList
  ++ diff ++ "\n".toList
  ++ "\n\nOUTPUT FORMAT:\nTITLE (one line)\nBLANK LINE\nBODY (2-4 lines)\n".toList

/-- The restyling prompt embedding the tone and the summary. -/
def stylePrompt (tone sum : Str) : Str :=
  "Rewrite the following commit (title + body) but:\n- KEEP the factual content *exactly*.\n- Apply this tone: ".toList
  ++ tone
  ++ "\n- Make it wild/funny/chaotic while readable.\n- Maintain title + body structure.\n- 1 title line, 2-40 body lines.\n\nOriginal commit:\n".toList
  ++ sum ++ "\n".toList

/-- One iteration of the retry loop: `sum, lastErr = callOllama(...)`.
`callOllama` returns the empty string together with an error. -/
def attemptResult (r : Except Str Str) : Str × Option Str :=
  match r with
  | Except.ok s => (s, none)
  | Except.error e => ([], some e)

/-- The bound of the summarizer retry loop (`attempt <= 2`). -/
def summarizerAttempts : Nat := 2

/-- The summarizer retry loop: `for attempt := 1; attempt <= 2; attempt++`
overwrites `(sum, lastErr)` on every iteration; an attempt error only skips
the status line (`continue`), never the next attempt. -/
def retryLoop (env : Env) (prompt : Str) : Str × Option Str :=
  (List.range' 1 summarizerAttempts).foldl
    (fun _ attempt => attemptResult (env.summResult prompt attempt)) ([], none)

/-- The comment line inserted before an appended suggestion. -/
def delimiterComment : Str :=
  "\n# Suggested commit message (auto-generated):\n".toList

/-- The message sink (`if hookFile != "" \x7b ... \x7d`): an empty path is a
no-op; an existing file without `--force` is opened for append and receives
the delimiter comment plus the message plus a newline after its bytes;
otherwise `os.WriteFile` replaces the contents with the message plus a
newline.  Returns the exit code (`some 5/6/7` on open, append-write and
overwrite-write failures), the file system, and the sink's events. -/
def persistHook (io : SinkIO) (fs : Str → Option Str) (path msg : Str)
    (force : Bool) : Option Nat × (Str → Option Str) × List Event :=
  if path = [] then (none, fs, [])
  else
    match fs path, force with
    | some old, false =>
      if io.openAppendFails path then (some 5, fs, [Event.hookOpen])
      else if io.appendWriteFails path then
        (some 6, fs, [Event.hookOpen, Event.hookAppend])
      else
        (none,
         Function.update fs path (some (old ++ delimiterComment ++ msg ++ ['\n'])),
         [Event.hookOpen, Event.hookAppend])
    | _, _ =>
      if io.writeFails path then (some 7, fs, [Event.hookWrite])
      else (none, Function.update fs path (some (msg ++ ['\n'])), [Event.hookWrite])

/-- The styling stage and everything after it: call the styling model
(exit 4 on failure), trim, optionally strip labels, print, and run the
message sink. -/
def styleStage (cfg : Config) (env : Env) (fs : Str → Option Str) (sum : Str)
    (evs : List Event) : RunResult :=
  match env.styleResult (stylePrompt cfg.tone sum) with
  | Except.error _ =>
    { exitCode := some 4, events := evs ++ [Event.styleCall],
      summary := some sum, printed := none, fs := fs }
  | Except.ok msg =>
    let m1 := trimSpace msg
    let m2 := if cfg.noLabels then stripLabels m1 else m1
    let trip := persistHook env.sink fs cfg.hookFile m2 cfg.forceWrite
    { exitCode := trip.1, events := evs ++ [Event.styleCall] ++ trip.2.2,
      summary := some sum, printed := some m2, fs := trip.2.1 }

/-- The whole `main` after flag parsing, as a function of the environment:
the load-summary short circuit (exit 2 on a read failure), or availability
probe (exit 1), diff acquisition (exit 2), the summarizer retry loop
(exit 3 when `lastErr` survives it), the optional save of the summary (a
failure is only a warning), then the styling stage and the sink. -/
def runMain (cfg : Config) (env : Env) : RunResult :=
  if cfg.loadSummary = [] then
    match env.probeErr with
    | some _ =>
      { exitCode := some 1, events := [Event.probe],
        summary := none, printed := none, fs := env.fs }
    | none =>
      match env.diffResult with
      | Except.error _ =>
        { exitCode := some 2, events := [Event.probe, Event.diffAcq],
          summary := none, printed := none, fs := env.fs }
      | Except.ok diff =>
        let evs := [Event.probe, Event.diffAcq, Event.summCall 1, Event.summCall 2]
        match retryLoop env (summaryPrompt diff) with
        | (_, some _) =>
          { exitCode := some 3, events := evs,
            summary := none, printed := none, fs := env.fs }
        | (sum, none) =>
          if cfg.saveSummary = [] then styleStage cfg env env.fs sum evs
          else if env.sink.writeFails cfg.saveSummary then
            styleStage cfg env env.fs sum
              (evs ++ [Event.saveSum cfg.saveSummary false])
          else
            styleStage cfg env
              (Function.update env.fs cfg.saveSummary (some sum)) sum
              (evs ++ [Event.saveSum cfg.saveSummary true])
  else
    match env.fs cfg.loadSummary with
    | none =>
      { exitCode := some 2, events := [Event.loadSum cfg.loadSummary],
        summary := none, printed := none, fs := env.fs }
    | some data =>
      styleStage cfg env env.fs data [Event.loadSum cfg.loadSummary]

/-- Is an event a summarizer backend call? -/
def isSummCall : Event → Bool
  | Event.summCall _ => true
  | _ => false

/-- How many summarizer backend calls a trace contains. -/
def numSummCalls (evs : List Event) : Nat :=
  (evs.filter isSummCall).length

/-! ## Concrete fixtures for evaluating the model -/

/-- A sink where every file operation succeeds. -/
def sinkOK : SinkIO :=
  { writeFails := fun _ => false
    openAppendFails := fun _ => false
    appendWriteFails := fun _ => false }

/-- A file system holding exactly one file. -/
def fsWith (p v : Str) : Str → Option Str :=
  fun q => if q = p then some v else none

/-- An environment where every collaborator succeeds. -/
def baseEnv : Env :=
  { probeErr := none
    diffResult := Except.ok "diff".toList
    summResult := fun _ _ => Except.ok "SUMMARY".toList
    styleResult := fun _ => Except.ok "MESSAGE".toList
    fs := fun _ => none
    sink := sinkOK }

/-- A configuration with no optional paths and no flags. -/
def cfgPlain : Config :=
  { loadSummary := []
    saveSummary := []
    hookFile := []
    forceWrite := false
    noLabels := false
    tone := "plain".toList }

/-! ## Helper lemmas: trimming and scanning -/

theorem dropWhile_dropWhile (p : Char → Bool) (l : Str) :
    (l.dropWhile p).dropWhile p = l.dropWhile p := by
  induction l with
  | nil => rfl
  | cons a t ih =>
    rw [List.dropWhile_cons]
    by_cases h : p a = true
    · rw [if_pos h]; exact ih
    · rw [if_neg h, List.dropWhile_cons, if_neg h]

theorem head_dropWhile_false (p : Char → Bool) (l : Str) :
    ∀ c, (l.dropWhile p).head? = some c → p c = false := by
  induction l with
  | nil => intro c h; simp at h
  | cons a t ih =>
    intro c h
    rw [List.dropWhile_cons] at h
    by_cases ha : p a = true
    · rw [if_pos ha] at h; exact ih c h
    · rw [if_neg ha] at h
      simp only [List.head?_cons, Option.some.injEq] at h
      subst h
      exact Bool.eq_false_iff.mpr ha

theorem dropWhile_eq_self (p : Char → Bool) (l : Str)
    (h : ∀ c, l.head? = some c → p c = false) : l.dropWhile p = l := by
  cases l with
  | nil => rfl
  | cons a t =>
    have ha : p a = false := h a rfl
    rw [List.dropWhile_cons, ha]
    simp

theorem getLast?_append_right {α : Type} (t u : List α) (h : u ≠ []) :
    (t ++ u).getLast? = u.getLast? := by
  rw [← List.head?_reverse, ← List.head?_reverse, List.reverse_append]
  cases hu : u.reverse with
  | nil => exact absurd (by simpa using hu) h
  | cons a r => simp [hu]

theorem trimSpace_idem (s : Str) : trimSpace (trimSpace s) = trimSpace s := by
  unfold trimSpace
  set p := isSpaceChar with hp
  set y := s.dropWhile p with hy
  set w := y.reverse with hw
  set z := (w.dropWhile p).reverse with hz
  have h1 : z.dropWhile p = z := by
    apply dropWhile_eq_self
    intro c hc
    rw [hz, List.head?_reverse] at hc
    cases hd : w.dropWhile p with
    | nil => rw [hd] at hc; simp at hc
    | cons a r =>
      have hne : w.dropWhile p ≠ [] := by rw [hd]; simp
      have hlast : (w.dropWhile p).getLast? = w.getLast? := by
        conv_rhs => rw [← List.takeWhile_append_dropWhile (p := p) (l := w)]
        exact (getLast?_append_right _ _ hne).symm
      rw [hlast] at hc
      rw [hw, List.getLast?_reverse] at hc
      exact head_dropWhile_false p s c (by rw [← hy]; exact hc)
  rw [h1]
  have h2 : z.reverse = w.dropWhile p := by rw [hz, List.reverse_reverse]
  rw [h2, dropWhile_dropWhile, ← hz]

theorem startsWith_cons_false (p c : Char) (ps cs : Str) (h : p ≠ c) :
    startsWith (p :: ps) (c :: cs) = false := by
  simp [startsWith, beq_eq_false_iff_ne.mpr h]

theorem replaceAllF_id (p : Char) (ps rep : Str) :
    ∀ (n : Nat) (s : Str), p ∉ s → replaceAllF p ps rep n s = s := by
  intro n
  induction n with
  | zero => intro s _; rfl
  | succ m ih =>
    intro s hp
    cases s with
    | nil => rfl
    | cons c cs =>
      have hc : p ≠ c := fun h => hp (h ▸ List.mem_cons_self c cs)
      have hcs : p ∉ cs := fun h => hp (List.mem_cons_of_mem c h)
      show (if startsWith (p :: ps) (c :: cs) then _ else c :: replaceAllF p ps rep m cs) = c :: cs
      rw [startsWith_cons_false p c ps cs hc]
      simp only [Bool.false_eq_true, if_false]
      rw [ih cs hcs]

theorem tryFence_none_of_no_tick (c : Char) (cs : Str) (h : c ≠ tickChar) :
    tryFence (c :: cs) = none := by
  unfold tryFence
  have : startsWith tick3 (c :: cs) = false := by
    show startsWith (tickChar :: [tickChar, tickChar]) (c :: cs) = false
    exact startsWith_cons_false _ _ _ _ (Ne.symm h)
  rw [this]
  simp

theorem fenceReplaceF_id :
    ∀ (n : Nat) (s : Str), tickChar ∉ s → fenceReplaceF n s = s := by
  intro n
  induction n with
  | zero => intro s _; rfl
  | succ m ih =>
    intro s ht
    cases s with
    | nil => rfl
    | cons c cs =>
      have hc : c ≠ tickChar := fun h => ht (h ▸ List.mem_cons_self c cs)
      have hcs : tickChar ∉ cs := fun h => ht (List.mem_cons_of_mem c h)
      show (match tryFence (c :: cs) with
            | some r => r.1 ++ fenceReplaceF m r.2
            | none => c :: fenceReplaceF m cs) = c :: cs
      rw [tryFence_none_of_no_tick c cs hc, ih cs hcs]

theorem cleanModelOutput_trimmed (x : Str) :
    trimSpace (cleanModelOutput x) = cleanModelOutput x := by
  unfold cleanModelOutput
  exact trimSpace_idem _

theorem cleanModelOutput_eq_self (y : Str) (h0 : trimSpace y = y)
    (hq : quoteWrapped y = false) (ht : tickChar ∉ y) (hr : '\r' ∉ y) :
    cleanModelOutput y = y := by
  simp only [cleanModelOutput]
  rw [h0, hq]
  simp only [Bool.false_eq_true, if_false]
  rw [show fenceReplace y = y from fenceReplaceF_id _ y ht]
  rw [show replaceAll tickChar [tickChar, tickChar] [] y = y from
        replaceAllF_id _ _ _ _ y ht]
  rw [show replaceAll '\r' ['\n'] ['\n'] y = y from replaceAllF_id _ _ _ _ y hr]
  exact h0

/-! ## Helper lemmas: line splitting and joining -/

theorem splitOnChar_ne_nil (sep : Char) (s : Str) : splitOnChar sep s ≠ [] := by
  cases s with
  | nil => simp [splitOnChar]
  | cons c cs =>
    simp only [splitOnChar]
    by_cases h : (c == sep) = true
    · simp [h]
    · simp only [h, if_false]
      cases splitOnChar sep cs with
      | nil => simp
      | cons a t => simp

theorem joinLines_splitOnChar (s : Str) :
    joinLines (splitOnChar '\n' s) = s := by
  induction s with
  | nil => rfl
  | cons c cs ih =>
    simp only [splitOnChar]
    by_cases h : (c == '\n') = true
    · have hc : c = '\n' := eq_of_beq h
      subst hc
      rw [if_pos h]
      cases hr : splitOnChar '\n' cs with
      | nil => exact absurd hr (splitOnChar_ne_nil _ _)
      | cons a t =>
        show [] ++ '\n' :: joinLines (a :: t) = '\n' :: cs
        rw [List.nil_append, ← hr, ih]
    · rw [if_neg h]
      cases hr : splitOnChar '\n' cs with
      | nil => exact absurd hr (splitOnChar_ne_nil _ _)
      | cons a t =>
        cases t with
        | nil =>
          show c :: a = c :: cs
          have : joinLines (splitOnChar '\n' cs) = cs := ih
          rw [hr] at this
          exact congrArg (c :: ·) this
        | cons b u =>
          show (c :: a) ++ '\n' :: joinLines (b :: u) = c :: cs
          have : joinLines (splitOnChar '\n' cs) = cs := ih
          rw [hr] at this
          show c :: (a ++ '\n' :: joinLines (b :: u)) = c :: cs
          rw [show a ++ '\n' :: joinLines (b :: u) = joinLines (a :: b :: u) from rfl]
          exact congrArg (c :: ·) this

theorem splitOnChar_no_sep (sep : Char) (l : Str) (h : sep ∉ l) :
    splitOnChar sep l = [l] := by
  induction l with
  | nil => rfl
  | cons c cs ih =>
    have hc : (c == sep) = false :=
      beq_eq_false_iff_ne.mpr (fun e => h (e ▸ List.mem_cons_self c cs))
    have hcs : sep ∉ cs := fun m => h (List.mem_cons_of_mem c m)
    simp only [splitOnChar]
    rw [if_neg (by simp [hc]), ih hcs]

theorem splitOnChar_append_sep (sep : Char) (p u : Str) (h : sep ∉ p) :
    splitOnChar sep (p ++ sep :: u) = p :: splitOnChar sep u := by
  induction p with
  | nil => simp [splitOnChar]
  | cons c p' ih =>
    have hc : (c == sep) = false :=
      beq_eq_false_iff_ne.mpr (fun e => h (e ▸ List.mem_cons_self c p'))
    have hp' : sep ∉ p' := fun m => h (List.mem_cons_of_mem c m)
    show splitOnChar sep (c :: (p' ++ sep :: u)) = (c :: p') :: splitOnChar sep u
    simp only [splitOnChar]
    rw [if_neg (by simp [hc]), ih hp']

theorem splitOnChar_joinLines (parts : List Str) (hne : parts ≠ [])
    (hnl : ∀ l ∈ parts, '\n' ∉ l) :
    splitOnChar '\n' (joinLines parts) = parts := by
  induction parts with
  | nil => exact absurd rfl hne
  | cons p rest ih =>
    cases rest with
    | nil =>
      show splitOnChar '\n' (joinLines [p]) = [p]
      exact splitOnChar_no_sep '\n' p (hnl p (List.mem_cons_self _ _))
    | cons q u =>
      show splitOnChar '\n' (p ++ '\n' :: joinLines (q :: u)) = p :: q :: u
      rw [splitOnChar_append_sep '\n' p _ (hnl p (List.mem_cons_self _ _))]
      rw [ih (by simp) (fun l hl => hnl l (List.mem_cons_of_mem p hl))]

theorem mem_splitOnChar_no_sep (sep : Char) (s : Str) :
    ∀ l ∈ splitOnChar sep s, sep ∉ l := by
  induction s with
  | nil =>
    intro l hl
    simp [splitOnChar] at hl
    subst hl
    simp
  | cons c cs ih =>
    intro l hl
    simp only [splitOnChar] at hl
    by_cases h : (c == sep) = true
    · rw [if_pos h] at hl
      rcases List.mem_cons.mp hl with h1 | h2
      · subst h1; simp
      · exact ih l h2
    · rw [if_neg h] at hl
      have hc : c ≠ sep := fun e => h (beq_iff_eq.mpr e)
      cases hr : splitOnChar sep cs with
      | nil => exact absurd hr (splitOnChar_ne_nil _ _)
      | cons a t =>
        rw [hr] at hl
        rcases List.mem_cons.mp hl with h1 | h2
        · subst h1
          intro hm
          rcases List.mem_cons.mp hm with h3 | h4
          · exact hc h3.symm
          · exact ih a (hr ▸ List.mem_cons_self a t) h4
        · exact ih l (hr ▸ List.mem_cons_of_mem a h2)

theorem mem_of_mem_trimSpace (a : Char) (l : Str) (h : a ∈ trimSpace l) :
    a ∈ l := by
  unfold trimSpace at h
  rw [List.mem_reverse] at h
  have h1 : a ∈ (l.dropWhile isSpaceChar).reverse :=
    (List.dropWhile_sublist _).subset h
  rw [List.mem_reverse] at h1
  exact (List.dropWhile_sublist _).subset h1

theorem not_mem_stripLine (l : Str) (h : '\n' ∉ l) : '\n' ∉ stripLine l := by
  simp only [stripLine]
  split_ifs with h1 h2
  · intro hm
    exact h (mem_of_mem_trimSpace _ _
      (List.drop_subset _ _ (mem_of_mem_trimSpace _ _ hm)))
  · intro hm
    exact h (mem_of_mem_trimSpace _ _
      (List.drop_subset _ _ (mem_of_mem_trimSpace _ _ hm)))
  · exact h

theorem stripLine_eq_self (l : Str) (h : hasLabel l = false) :
    stripLine l = l := by
  simp only [hasLabel, Bool.or_eq_false_iff] at h
  obtain ⟨h1, h2⟩ := h
  have h1' : startsWith ['t', 'i', 't', 'l', 'e', ':']
      (List.map toLowerChar (trimSpace l)) = false := h1
  have h2' : startsWith ['b', 'o', 'd', 'y', ':']
      (List.map toLowerChar (trimSpace l)) = false := h2
  simp only [stripLine]
  rw [if_neg (by simp [h1']), if_neg (by simp [h2'])]

/-! ## Helper lemmas: stream decoding -/

theorem decodeLoop_all_ok (items : List DecodeItem)
    (h : ∀ i ∈ items, i ≠ DecodeItem.malformed) :
    ∀ acc, decodeLoop acc items = Except.ok (acc ++ joinResponses items) := by
  induction items with
  | nil => intro acc; simp [decodeLoop, joinResponses]
  | cons i rest ih =>
    intro acc
    cases i with
    | malformed => exact absurd rfl (h _ (List.mem_cons_self _ _))
    | chunk c =>
      show decodeLoop (acc ++ c.response) rest = _
      rw [ih (fun j hj => h j (List.mem_cons_of_mem _ hj)) (acc ++ c.response)]
      simp [joinResponses, List.append_assoc]

theorem decodeLoop_malformed (items : List DecodeItem)
    (h : DecodeItem.malformed ∈ items) :
    ∀ acc, decodeLoop acc items = Except.error "failed to decode response".toList := by
  induction items with
  | nil => exact absurd h (List.not_mem_nil _)
  | cons i rest ih =>
    intro acc
    cases i with
    | malformed => rfl
    | chunk c =>
      have hr : DecodeItem.malformed ∈ rest := by
        rcases List.mem_cons.mp h with h1 | h2
        · exact absurd h1.symm (by simp)
        · exact h2
      exact ih hr (acc ++ c.response)

theorem decodeLoop_mapDone (f : Bool → Bool) (items : List DecodeItem) :
    ∀ acc, decodeLoop acc (items.map (mapDone f)) = decodeLoop acc items := by
  induction items with
  | nil => intro acc; rfl
  | cons i rest ih =>
    intro acc
    cases i with
    | malformed => rfl
    | chunk c => exact ih (acc ++ c.response)

/-! ## Helper lemmas: the message sink and the styling stage -/

theorem persistHook_nil (io : SinkIO) (fs : Str → Option Str) (msg : Str)
    (force : Bool) : persistHook io fs [] msg force = (none, fs, []) := rfl

theorem persistHook_eq_append (io : SinkIO) (fs : Str → Option Str)
    (path msg : Str) (hp : path ≠ []) (old : Str) (hfs : fs path = some old) :
    persistHook io fs path msg false =
      if io.openAppendFails path then (some 5, fs, [Event.hookOpen])
      else if io.appendWriteFails path then
        (some 6, fs, [Event.hookOpen, Event.hookAppend])
      else
        (none,
         Function.update fs path (some (old ++ delimiterComment ++ msg ++ ['\n'])),
         [Event.hookOpen, Event.hookAppend]) := by
  unfold persistHook
  rw [if_neg hp, hfs]

theorem persistHook_eq_write_none (io : SinkIO) (fs : Str → Option Str)
    (path msg : Str) (force : Bool) (hp : path ≠ []) (hfs : fs path = none) :
    persistHook io fs path msg force =
      if io.writeFails path then (some 7, fs, [Event.hookWrite])
      else (none, Function.update fs path (some (msg ++ ['\n'])), [Event.hookWrite]) := by
  unfold persistHook
  rw [if_neg hp, hfs]

theorem persistHook_eq_write_force (io : SinkIO) (fs : Str → Option Str)
    (path msg : Str) (hp : path ≠ []) :
    persistHook io fs path msg true =
      if io.writeFails path then (some 7, fs, [Event.hookWrite])
      else (none, Function.update fs path (some (msg ++ ['\n'])), [Event.hookWrite]) := by
  unfold persistHook
  rw [if_neg hp]
  rcases hfs : fs path with _ | old <;> rfl

theorem persistHook_events_sink (io : SinkIO) (fs : Str → Option Str)
    (path msg : Str) (force : Bool) :
    ∀ e ∈ (persistHook io fs path msg force).2.2,
      e = Event.hookOpen ∨ e = Event.hookAppend ∨ e = Event.hookWrite := by
  intro e he
  by_cases hp : path = []
  · rw [hp, persistHook_nil] at he
    simp at he
  · rcases hfs : fs path with _ | old
    · rw [persistHook_eq_write_none io fs path msg force hp hfs] at he
      split_ifs at he <;> simp at he <;> tauto
    · cases force
      · rw [persistHook_eq_append io fs path msg hp old hfs] at he
        split_ifs at he <;> simp at he <;> tauto
      · rw [persistHook_eq_write_force io fs path msg hp] at he
        split_ifs at he <;> simp at he <;> tauto

theorem styleStage_summary (cfg : Config) (env : Env) (fs : Str → Option Str)
    (sum : Str) (evs : List Event) :
    (styleStage cfg env fs sum evs).summary = some sum := by
  unfold styleStage
  rcases hr : env.styleResult (stylePrompt cfg.tone sum) with e | msg <;> rfl

theorem styleStage_events_shape (cfg : Config) (env : Env)
    (fs : Str → Option Str) (sum : Str) (evs : List Event) :
    ∃ t, (styleStage cfg env fs sum evs).events = evs ++ Event.styleCall :: t ∧
      ∀ e ∈ t, e = Event.hookOpen ∨ e = Event.hookAppend ∨ e = Event.hookWrite := by
  unfold styleStage
  rcases hr : env.styleResult (stylePrompt cfg.tone sum) with e | msg
  · exact ⟨[], by simp, by simp⟩
  · refine ⟨(persistHook env.sink fs cfg.hookFile
        (if cfg.noLabels then stripLabels (trimSpace msg) else trimSpace msg)
        cfg.forceWrite).2.2, ?_, ?_⟩
    · simp
    · exact persistHook_events_sink _ _ _ _ _

theorem styleStage_exit_error (cfg : Config) (env : Env) (fs : Str → Option Str)
    (sum : Str) (evs : List Event) (e : Str)
    (h : env.styleResult (stylePrompt cfg.tone sum) = Except.error e) :
    (styleStage cfg env fs sum evs).exitCode = some 4 := by
  unfold styleStage
  rw [h]

theorem styleStage_exit_ok (cfg : Config) (env : Env) (fs : Str → Option Str)
    (sum : Str) (evs : List Event) (msg : Str)
    (h : env.styleResult (stylePrompt cfg.tone sum) = Except.ok msg) :
    (styleStage cfg env fs sum evs).exitCode =
      (persistHook env.sink fs cfg.hookFile
        (if cfg.noLabels then stripLabels (trimSpace msg) else trimSpace msg)
        cfg.forceWrite).1 := by
  unfold styleStage
  rw [h]

theorem styleStage_fs_no_hook (cfg : Config) (env : Env) (fs : Str → Option Str)
    (sum : Str) (evs : List Event) (hh : cfg.hookFile = []) :
    (styleStage cfg env fs sum evs).fs = fs := by
  unfold styleStage
  rcases hr : env.styleResult (stylePrompt cfg.tone sum) with e | msg
  · rfl
  · show (persistHook env.sink fs cfg.hookFile _ cfg.forceWrite).2.1 = fs
    rw [hh, persistHook_nil]

theorem retryLoop_eq (env : Env) (p : Str) :
    retryLoop env p = attemptResult (env.summResult p 2) := rfl

theorem numSummCalls_styleStage (cfg : Config) (env : Env)
    (fs : Str → Option Str) (sum : Str) (evs : List Event) :
    numSummCalls (styleStage cfg env fs sum evs).events = numSummCalls evs := by
  obtain ⟨t, hev, hsink⟩ := styleStage_events_shape cfg env fs sum evs
  rw [hev]
  unfold numSummCalls
  rw [List.filter_append]
  have ht : (Event.styleCall :: t).filter isSummCall = [] := by
    rw [List.filter_eq_nil_iff]
    intro e he
    rcases List.mem_cons.mp he with h1 | h2
    · subst h1; simp [isSummCall]
    · rcases hsink e h2 with h3 | h3 | h3 <;> subst h3 <;> simp [isSummCall]
  rw [ht, List.append_nil]

/-! ## The claims -/

/-- Claim C2, counterexample: the Output Normalizer is not idempotent.  On
`"a\r\r\nb"` the single replacement pass over CRLF pairs consumes the
first `\r\n` it finds and leaves a fresh `\r\n` behind, which only a second
application removes. -/
theorem cleanModelOutput_not_idempotent_crlf :
    cleanModelOutput (cleanModelOutput ['a', '\r', '\r', '\n', 'b']) ≠
      cleanModelOutput ['a', '\r', '\r', '\n', 'b'] := by decide

/-- Claim C2, amended: the Output Normalizer is idempotent on every input whose
normalized form contains no carriage return and no backquote and is not
wrapped in a matching pair of quotes; the unrestricted claim fails (see the
counterexample). -/
theorem cleanModelOutput_idem_of_plain (x : Str)
    (hr : '\r' ∉ cleanModelOutput x) (ht : tickChar ∉ cleanModelOutput x)
    (hq : quoteWrapped (cleanModelOutput x) = false) :
    cleanModelOutput (cleanModelOutput x) = cleanModelOutput x :=
  cleanModelOutput_eq_self _ (cleanModelOutput_trimmed x) hq ht hr

/-- Claim C2, witness: the amended idempotence instantiated at `"hello"`. -/
theorem cleanModelOutput_idem_of_plain_witness :
    ('\r' ∉ cleanModelOutput "hello".toList) ∧
    (tickChar ∉ cleanModelOutput "hello".toList) ∧
    (quoteWrapped (cleanModelOutput "hello".toList) = false) ∧
    cleanModelOutput (cleanModelOutput "hello".toList) =
      cleanModelOutput "hello".toList :=
  ⟨by decide, by decide, by decide,
   cleanModelOutput_idem_of_plain "hello".toList (by decide) (by decide) (by decide)⟩

/-- Claim C3: the backend client's HTTP timeout is the hard-coded 60 seconds of
`http.Client\x7bTimeout: 60 * time.Second\x7d`, not the 300-second
configurable default that the specification and the repository README
describe (no `--timeout` flag exists in the code). -/
theorem callOllama_timeout_is_sixty :
    callOllamaTimeoutSeconds = 60 ∧
    callOllamaTimeoutSeconds ≠ documentedDefaultTimeoutSeconds := by decide

/-- Claim C7: label stripping removes only recognized `Title:`/`Body:` prefixes:
the concrete example strips both labels and keeps `Extra: info`; a string
none of whose lines carries a recognized label is returned unchanged; and
the line structure (the number of newline-separated lines) is always
preserved. -/
theorem stripLabels_spec :
    stripLabels "Title: Fix bug\nBody: details\nExtra: info".toList =
      "Fix bug\ndetails\nExtra: info".toList ∧
    (∀ s : Str, (∀ l ∈ splitOnChar '\n' s, hasLabel l = false) →
      stripLabels s = s) ∧
    (∀ s : Str,
      (splitOnChar '\n' (stripLabels s)).length = (splitOnChar '\n' s).length) := by
  refine ⟨by decide, ?_, ?_⟩
  · intro s h
    unfold stripLabels
    have hmap : (splitOnChar '\n' s).map stripLine = splitOnChar '\n' s := by
      rw [List.map_congr_left (fun l hl => stripLine_eq_self l (h l hl))]
      exact List.map_id _
    rw [hmap, joinLines_splitOnChar]
  · intro s
    have hparts : splitOnChar '\n' (stripLabels s) =
        (splitOnChar '\n' s).map stripLine := by
      unfold stripLabels
      apply splitOnChar_joinLines
      · simp only [ne_eq, List.map_eq_nil_iff]
        exact splitOnChar_ne_nil _ _
      · intro l hl
        obtain ⟨l0, hl0, rfl⟩ := List.mem_map.mp hl
        exact not_mem_stripLine l0 (mem_splitOnChar_no_sep '\n' s l0 hl0)
    rw [hparts, List.length_map]

/-- Claim C7, witness: the unchanged-lines part instantiated at
`"hello\nworld"`, which carries no recognized label. -/
theorem stripLabels_spec_witness :
    (∀ l ∈ splitOnChar '\n' "hello\nworld".toList, hasLabel l = false) ∧
    stripLabels "hello\nworld".toList = "hello\nworld".toList :=
  ⟨by decide, stripLabels_spec.2.1 "hello\nworld".toList (by decide)⟩

/-- Claim C8: the backend client decodes the stream to the end of input,
concatenating all `response` fragments in arrival order (in particular the
chunks `ab`, `cd` yield `abcd` before normalization), and a malformed
object at any point of the stream is a decode error. -/
theorem decodeStream_spec :
    (∀ items : List DecodeItem, (∀ i ∈ items, i ≠ DecodeItem.malformed) →
      decodeStream items = Except.ok (joinResponses items)) ∧
    decodeStream [DecodeItem.chunk ⟨"ab".toList, false⟩,
                  DecodeItem.chunk ⟨"cd".toList, true⟩] =
      Except.ok "abcd".toList ∧
    (∀ items : List DecodeItem, DecodeItem.malformed ∈ items →
      decodeStream items = Except.error "failed to decode response".toList) := by
  refine ⟨?_, rfl, ?_⟩
  · intro items h
    unfold decodeStream
    rw [decodeLoop_all_ok items h []]
    simp
  · intro items h
    unfold decodeStream
    exact decodeLoop_malformed items h []

/-- Claim C8, witness: both quantified parts instantiated at one-element
streams. -/
theorem decodeStream_spec_witness :
    (∀ i ∈ ([DecodeItem.chunk ⟨"x".toList, true⟩] : List DecodeItem),
      i ≠ DecodeItem.malformed) ∧
    decodeStream [DecodeItem.chunk ⟨"x".toList, true⟩] =
      Except.ok (joinResponses [DecodeItem.chunk ⟨"x".toList, true⟩]) ∧
    DecodeItem.malformed ∈ ([DecodeItem.malformed] : List DecodeItem) ∧
    decodeStream [DecodeItem.malformed] =
      Except.error "failed to decode response".toList :=
  ⟨by decide, decodeStream_spec.1 _ (by decide), by decide,
   decodeStream_spec.2.2 _ (by decide)⟩

/-- Claim C10: the decode loop never inspects the `done` flag — rewriting every
`done` flag leaves the result unchanged — and fragments arriving after a
`done: true` chunk are still appended. -/
theorem decodeStream_ignores_done :
    (∀ (f : Bool → Bool) (items : List DecodeItem),
      decodeStream (items.map (mapDone f)) = decodeStream items) ∧
    decodeStream [DecodeItem.chunk ⟨"ab".toList, true⟩,
                  DecodeItem.chunk ⟨"cd".toList, false⟩] =
      Except.ok "abcd".toList := by
  refine ⟨?_, rfl⟩
  intro f items
  unfold decodeStream
  exact decodeLoop_mapDone f items []

/-- Claim C4: when a load path is supplied, the availability probe, the
diff acquisition and the summarizer backend are never invoked; a read
failure is fatal with exit code 2; on success the summary is the file
content, verbatim. -/
theorem loadSummary_skips_summarizer (cfg : Config) (env : Env)
    (h : cfg.loadSummary ≠ []) :
    (Event.probe ∉ (runMain cfg env).events ∧
     Event.diffAcq ∉ (runMain cfg env).events ∧
     ∀ k, Event.summCall k ∉ (runMain cfg env).events) ∧
    (env.fs cfg.loadSummary = none → (runMain cfg env).exitCode = some 2) ∧
    (∀ d, env.fs cfg.loadSummary = some d → (runMain cfg env).summary = some d) := by
  unfold runMain
  rw [if_neg h]
  rcases hfs : env.fs cfg.loadSummary with _ | d
  · refine ⟨⟨by simp, by simp, fun k => by simp⟩, fun _ => rfl, fun d hd => by simp at hd⟩
  · obtain ⟨t, hev, hsink⟩ :=
      styleStage_events_shape cfg env env.fs d [Event.loadSum cfg.loadSummary]
    have hnot : ∀ (e : Event), (e = Event.probe ∨ e = Event.diffAcq ∨ ∃ k, e = Event.summCall k) →
        e ∉ (styleStage cfg env env.fs d [Event.loadSum cfg.loadSummary]).events := by
      intro e hshape hm
      rw [hev] at hm
      rcases List.mem_append.mp hm with h1 | h2
      · rcases hshape with h' | h' | ⟨k, h'⟩ <;> subst h' <;> simp at h1
      · rcases List.mem_cons.mp h2 with h3 | h4
        · rcases hshape with h' | h' | ⟨k, h'⟩ <;> subst h' <;> simp at h3
        · rcases hsink e h4 with h5 | h5 | h5 <;>
            rcases hshape with h' | h' | ⟨k, h'⟩ <;> subst h' <;> simp at h5
    refine ⟨⟨hnot _ (Or.inl rfl), hnot _ (Or.inr (Or.inl rfl)),
        fun k => hnot _ (Or.inr (Or.inr ⟨k, rfl⟩))⟩,
      fun hc => by simp at hc, fun d' hd' => ?_⟩
    have : d = d' := by injection hd'
    subst this
    exact styleStage_summary cfg env env.fs d [Event.loadSum cfg.loadSummary]

/-- Claim C9: a run that reaches the summarizing stage calls the
summarizer backend exactly twice (the loop never exits early), and the
summary handed to the save step and the styling stage is the second
invocation's result. -/
theorem summarizer_invoked_twice_uses_second (cfg : Config) (env : Env) (d : Str)
    (hload : cfg.loadSummary = []) (hprobe : env.probeErr = none)
    (hdiff : env.diffResult = Except.ok d) :
    numSummCalls (runMain cfg env).events = 2 ∧
    ∀ s, env.summResult (summaryPrompt d) 2 = Except.ok s →
      (runMain cfg env).summary = some s ∧
      (cfg.hookFile = [] → cfg.saveSummary ≠ [] →
        env.sink.writeFails cfg.saveSummary = false →
        (runMain cfg env).fs cfg.saveSummary = some s) := by
  unfold runMain
  rw [if_pos hload, hprobe, hdiff]
  dsimp only
  rw [retryLoop_eq]
  rcases h2 : env.summResult (summaryPrompt d) 2 with e | s2
  · exact ⟨rfl, fun s hs => by simp at hs⟩
  · dsimp only [attemptResult]
    by_cases hsave : cfg.saveSummary = []
    · rw [if_pos hsave]
      refine ⟨?_, fun s hs => ?_⟩
      · rw [numSummCalls_styleStage]; rfl
      · have hss : s2 = s := by injection hs
        subst hss
        exact ⟨styleStage_summary _ _ _ _ _, fun _ hne _ => absurd hsave hne⟩
    · rw [if_neg hsave]
      by_cases hwf : env.sink.writeFails cfg.saveSummary = true
      · rw [if_pos hwf]
        refine ⟨?_, fun s hs => ?_⟩
        · rw [numSummCalls_styleStage]; rfl
        · have hss : s2 = s := by injection hs
          subst hss
          refine ⟨styleStage_summary _ _ _ _ _, fun _ _ hwf' => ?_⟩
          rw [hwf] at hwf'
          exact absurd hwf' (by simp)
      · rw [if_neg hwf]
        refine ⟨?_, fun s hs => ?_⟩
        · rw [numSummCalls_styleStage]; rfl
        · have hss : s2 = s := by injection hs
          subst hss
          refine ⟨styleStage_summary _ _ _ _ _, fun hh _ _ => ?_⟩
          rw [styleStage_fs_no_hook _ _ _ _ _ hh]
          exact Function.update_same _ _ _

/-- Claim C5: the exit code of each failing stage — 1 liveness probe,
2 diff acquisition or summary-load read, 3 summarizer retry-loop failure,
4 styling, 5 sink open-for-append, 6 sink append-write, 7 sink
overwrite-write — while a save-summary write failure is only logged and
the run proceeds to the styling call. -/
theorem exit_code_mapping (cfg : Config) (env : Env) :
    (cfg.loadSummary = [] → ∀ e, env.probeErr = some e →
      (runMain cfg env).exitCode = some 1) ∧
    (cfg.loadSummary = [] → env.probeErr = none →
      ∀ e, env.diffResult = Except.error e →
      (runMain cfg env).exitCode = some 2) ∧
    (cfg.loadSummary ≠ [] → env.fs cfg.loadSummary = none →
      (runMain cfg env).exitCode = some 2) ∧
    (cfg.loadSummary = [] → env.probeErr = none →
      ∀ d, env.diffResult = Except.ok d →
      ∀ e1 e2, env.summResult (summaryPrompt d) 1 = Except.error e1 →
      env.summResult (summaryPrompt d) 2 = Except.error e2 →
      (runMain cfg env).exitCode = some 3) ∧
    (cfg.loadSummary = [] → env.probeErr = none →
      ∀ d, env.diffResult = Except.ok d →
      ∀ s, env.summResult (summaryPrompt d) 2 = Except.ok s →
      cfg.saveSummary ≠ [] → env.sink.writeFails cfg.saveSummary = true →
      Event.saveSum cfg.saveSummary false ∈ (runMain cfg env).events ∧
      Event.styleCall ∈ (runMain cfg env).events) ∧
    (cfg.loadSummary = [] → env.probeErr = none →
      ∀ d, env.diffResult = Except.ok d →
      ∀ s, env.summResult (summaryPrompt d) 2 = Except.ok s →
      ∀ e, (∀ p, env.styleResult p = Except.error e) →
      (runMain cfg env).exitCode = some 4) ∧
    (cfg.loadSummary = [] → env.probeErr = none →
      ∀ d, env.diffResult = Except.ok d →
      ∀ s, env.summResult (summaryPrompt d) 2 = Except.ok s →
      cfg.saveSummary = [] →
      ∀ m, (∀ p, env.styleResult p = Except.ok m) →
      cfg.hookFile ≠ [] →
      ∀ old, env.fs cfg.hookFile = some old → cfg.forceWrite = false →
      env.sink.openAppendFails cfg.hookFile = true →
      (runMain cfg env).exitCode = some 5) ∧
    (cfg.loadSummary = [] → env.probeErr = none →
      ∀ d, env.diffResult = Except.ok d →
      ∀ s, env.summResult (summaryPrompt d) 2 = Except.ok s →
      cfg.saveSummary = [] →
      ∀ m, (∀ p, env.styleResult p = Except.ok m) →
      cfg.hookFile ≠ [] →
      ∀ old, env.fs cfg.hookFile = some old → cfg.forceWrite = false →
      env.sink.openAppendFails cfg.hookFile = false →
      env.sink.appendWriteFails cfg.hookFile = true →
      (runMain cfg env).exitCode = some 6) ∧
    (cfg.loadSummary = [] → env.probeErr = none →
      ∀ d, env.diffResult = Except.ok d →
      ∀ s, env.summResult (summaryPrompt d) 2 = Except.ok s →
      cfg.saveSummary = [] →
      ∀ m, (∀ p, env.styleResult p = Except.ok m) →
      cfg.hookFile ≠ [] →
      (env.fs cfg.hookFile = none ∨ cfg.forceWrite = true) →
      env.sink.writeFails cfg.hookFile = true →
      (runMain cfg env).exitCode = some 7) := by
  refine ⟨?_, ?_, ?_, ?_, ?_, ?_, ?_, ?_, ?_⟩
  · intro hl e hp
    unfold runMain
    rw [if_pos hl, hp]
  · intro hl hp e hd
    unfold runMain
    rw [if_pos hl, hp, hd]
  · intro hl hf
    unfold runMain
    rw [if_neg hl, hf]
  · intro hl hp d hd e1 e2 h1 h2
    unfold runMain
    rw [if_pos hl, hp, hd]
    dsimp only
    rw [retryLoop_eq, h2]
    rfl
  · intro hl hp d hd s hs hsne hwf
    unfold runMain
    rw [if_pos hl, hp, hd]
    dsimp only
    rw [retryLoop_eq, hs]
    dsimp only [attemptResult]
    rw [if_neg hsne, if_pos hwf]
    obtain ⟨t, hev, _⟩ := styleStage_events_shape cfg env env.fs s
      ([Event.probe, Event.diffAcq, Event.summCall 1, Event.summCall 2] ++
        [Event.saveSum cfg.saveSummary false])
    rw [hev]
    constructor
    · apply List.mem_append_left
      simp
    · apply List.mem_append_right
      simp
  · intro hl hp d hd s hs e hstyle
    unfold runMain
    rw [if_pos hl, hp, hd]
    dsimp only
    rw [retryLoop_eq, hs]
    dsimp only [attemptResult]
    by_cases hsave : cfg.saveSummary = []
    · rw [if_pos hsave]
      exact styleStage_exit_error _ _ _ _ _ _ (hstyle _)
    · rw [if_neg hsave]
      by_cases hwf : env.sink.writeFails cfg.saveSummary = true
      · rw [if_pos hwf]
        exact styleStage_exit_error _ _ _ _ _ _ (hstyle _)
      · rw [if_neg hwf]
        exact styleStage_exit_error _ _ _ _ _ _ (hstyle _)
  · intro hl hp d hd s hs hsave m hstyle hhook old hfs hforce hopen
    unfold runMain
    rw [if_pos hl, hp, hd]
    dsimp only
    rw [retryLoop_eq, hs]
    dsimp only [attemptResult]
    rw [if_pos hsave]
    rw [styleStage_exit_ok _ _ _ _ _ m (hstyle _)]
    rw [hforce, persistHook_eq_append _ _ _ _ hhook old hfs, if_pos hopen]
  · intro hl hp d hd s hs hsave m hstyle hhook old hfs hforce hopen happ
    unfold runMain
    rw [if_pos hl, hp, hd]
    dsimp only
    rw [retryLoop_eq, hs]
    dsimp only [attemptResult]
    rw [if_pos hsave]
    rw [styleStage_exit_ok _ _ _ _ _ m (hstyle _)]
    rw [hforce, persistHook_eq_append _ _ _ _ hhook old hfs,
      if_neg (by simp [hopen]), if_pos happ]
  · intro hl hp d hd s hs hsave m hstyle hhook hcase hw
    unfold runMain
    rw [if_pos hl, hp, hd]
    dsimp only
    rw [retryLoop_eq, hs]
    dsimp only [attemptResult]
    rw [if_pos hsave]
    rw [styleStage_exit_ok _ _ _ _ _ m (hstyle _)]
    rcases hcase with hn | hf
    · rw [persistHook_eq_write_none _ _ _ _ _ hhook hn, if_pos hw]
    · rw [hf, persistHook_eq_write_force _ _ _ _ hhook, if_pos hw]

/-- Claim C6: the message sink is a no-op on an empty path; when the file
does not exist or overwrite is forced it writes exactly the message plus
one trailing newline, touching no other path; when the file exists and
overwrite is not forced it appends the delimiter comment and the message
plus newline after the existing bytes, preserving them. -/
theorem persistHook_spec (io : SinkIO) (fs : Str → Option Str)
    (path msg : Str) (force : Bool) :
    (path = [] → persistHook io fs path msg force = (none, fs, [])) ∧
    (path ≠ [] → io.writeFails path = false →
      (fs path = none ∨ force = true) →
      (persistHook io fs path msg force).1 = none ∧
      (persistHook io fs path msg force).2.1 path = some (msg ++ ['\n']) ∧
      ∀ q, q ≠ path → (persistHook io fs path msg force).2.1 q = fs q) ∧
    (∀ old, path ≠ [] → fs path = some old → force = false →
      io.openAppendFails path = false → io.appendWriteFails path = false →
      (persistHook io fs path msg force).1 = none ∧
      (persistHook io fs path msg force).2.1 path =
        some (old ++ delimiterComment ++ msg ++ ['\n']) ∧
      ∀ q, q ≠ path → (persistHook io fs path msg force).2.1 q = fs q) := by
  refine ⟨?_, ?_, ?_⟩
  · intro hp
    rw [hp, persistHook_nil]
  · intro hp hw hcase
    have heq : persistHook io fs path msg force =
        (none, Function.update fs path (some (msg ++ ['\n'])), [Event.hookWrite]) := by
      rcases hcase with hn | hf
      · rw [persistHook_eq_write_none io fs path msg force hp hn,
          if_neg (by simp [hw])]
      · rw [hf, persistHook_eq_write_force io fs path msg hp,
          if_neg (by simp [hw])]
    rw [heq]
    exact ⟨rfl, Function.update_same _ _ _, fun q hq => Function.update_noteq hq _ _⟩
  · intro old hp hfs hforce hopen happ
    have heq : persistHook io fs path msg force =
        (none,
         Function.update fs path (some (old ++ delimiterComment ++ msg ++ ['\n'])),
         [Event.hookOpen, Event.hookAppend]) := by
      rw [hforce, persistHook_eq_append io fs path msg hp old hfs,
        if_neg (by simp [hopen]), if_neg (by simp [happ])]
    rw [heq]
    exact ⟨rfl, Function.update_same _ _ _, fun q hq => Function.update_noteq hq _ _⟩

/-- Claim C1, code evaluation: with attempt 1 succeeding and attempt 2
failing, the run still exits with code 3 — the loop has no early exit and
keeps only the last attempt's outcome, contradicting the claim that any
successful attempt is accepted. -/
theorem summarizer_retry_keeps_last_attempt_only :
    ({ baseEnv with
        summResult := fun _ k =>
          if k = 1 then Except.ok "good summary".toList
          else Except.error "boom".toList } : Env).summResult
        (summaryPrompt "diff".toList) 1 = Except.ok "good summary".toList ∧
    (runMain cfgPlain
      { baseEnv with
        summResult := fun _ k =>
          if k = 1 then Except.ok "good summary".toList
          else Except.error "boom".toList }).exitCode = some 3 :=
  ⟨rfl, rfl⟩

/-- Claim C4, witness: the skip property at a concrete load file. -/
theorem loadSummary_skips_summarizer_witness :
    (({ cfgPlain with loadSummary := "f".toList } : Config).loadSummary ≠ []) ∧
    (∀ k, Event.summCall k ∉ (runMain { cfgPlain with loadSummary := "f".toList }
        { baseEnv with fs := fsWith "f".toList "SUM".toList }).events) ∧
    (runMain { cfgPlain with loadSummary := "f".toList }
        { baseEnv with fs := fsWith "f".toList "SUM".toList }).summary =
      some "SUM".toList :=
  ⟨by decide,
   (loadSummary_skips_summarizer _ _ (by decide)).1.2.2,
   (loadSummary_skips_summarizer _ _ (by decide)).2.2 "SUM".toList (by decide)⟩

/-- Claim C9, witness: two summarizer calls and the saved second result,
at a concrete environment. -/
theorem summarizer_invoked_twice_uses_second_witness :
    numSummCalls (runMain cfgPlain baseEnv).events = 2 ∧
    (runMain cfgPlain baseEnv).summary = some "SUMMARY".toList ∧
    (runMain { cfgPlain with saveSummary := "s".toList } baseEnv).fs "s".toList =
      some "SUMMARY".toList :=
  ⟨(summarizer_invoked_twice_uses_second cfgPlain baseEnv "diff".toList rfl rfl rfl).1,
   ((summarizer_invoked_twice_uses_second cfgPlain baseEnv "diff".toList rfl rfl rfl).2
      "SUMMARY".toList rfl).1,
   ((summarizer_invoked_twice_uses_second { cfgPlain with saveSummary := "s".toList } baseEnv
      "diff".toList rfl rfl rfl).2 "SUMMARY".toList rfl).2 rfl (by decide) rfl⟩

/-- Claim C5, witness: every exit-code conjunct instantiated at a
concrete environment. -/
theorem exit_code_mapping_witness :
    (runMain cfgPlain { baseEnv with probeErr := some "down".toList }).exitCode =
      some 1 ∧
    (runMain cfgPlain
      { baseEnv with diffResult := Except.error "git".toList }).exitCode = some 2 ∧
    (runMain { cfgPlain with loadSummary := "f".toList } baseEnv).exitCode =
      some 2 ∧
    (runMain cfgPlain
      { baseEnv with summResult := fun _ _ => Except.error "e".toList }).exitCode =
      some 3 ∧
    Event.styleCall ∈ (runMain { cfgPlain with saveSummary := "s".toList }
      { baseEnv with sink := { sinkOK with writeFails := fun _ => true } }).events ∧
    (runMain cfgPlain
      { baseEnv with styleResult := fun _ => Except.error "se".toList }).exitCode =
      some 4 ∧
    (runMain { cfgPlain with hookFile := "h".toList }
      { baseEnv with fs := fsWith "h".toList "OLD".toList,
                     sink := { sinkOK with openAppendFails := fun _ => true } }).exitCode =
      some 5 ∧
    (runMain { cfgPlain with hookFile := "h".toList }
      { baseEnv with fs := fsWith "h".toList "OLD".toList,
                     sink := { sinkOK with appendWriteFails := fun _ => true } }).exitCode =
      some 6 ∧
    (runMain { cfgPlain with hookFile := "h".toList }
      { baseEnv with sink := { sinkOK with writeFails := fun _ => true } }).exitCode =
      some 7 :=
  ⟨(exit_code_mapping _ _).1 rfl _ rfl,
   (exit_code_mapping _ _).2.1 rfl rfl _ rfl,
   (exit_code_mapping _ _).2.2.1 (by decide) rfl,
   (exit_code_mapping _ _).2.2.2.1 rfl rfl _ rfl _ _ rfl rfl,
   ((exit_code_mapping _ _).2.2.2.2.1 rfl rfl _ rfl _ rfl (by decide) rfl).2,
   (exit_code_mapping _ _).2.2.2.2.2.1 rfl rfl _ rfl _ rfl _ (fun _ => rfl),
   (exit_code_mapping _ _).2.2.2.2.2.2.1 rfl rfl _ rfl _ rfl rfl _
     (fun _ => rfl) (by decide) "OLD".toList (by decide) rfl rfl,
   (exit_code_mapping _ _).2.2.2.2.2.2.2.1 rfl rfl _ rfl _ rfl rfl _
     (fun _ => rfl) (by decide) "OLD".toList (by decide) rfl rfl rfl,
   (exit_code_mapping _ _).2.2.2.2.2.2.2.2 rfl rfl _ rfl _ rfl rfl _
     (fun _ => rfl) (by decide) (Or.inl rfl) rfl⟩

/-- Claim C6, witness: the append, overwrite and no-op cases at concrete
paths. -/
theorem persistHook_spec_witness :
    (persistHook sinkOK (fsWith "h".toList "OLD".toList) "h".toList "MSG".toList
        false).2.1 "h".toList =
      some ("OLD".toList ++ delimiterComment ++ "MSG".toList ++ ['\n']) ∧
    (persistHook sinkOK (fun _ => none) "h".toList "MSG".toList false).2.1
        "h".toList = some ("MSG".toList ++ ['\n']) ∧
    persistHook sinkOK (fun _ => none) [] "MSG".toList false =
      (none, (fun _ => none), []) :=
  ⟨((persistHook_spec _ _ _ _ _).2.2 "OLD".toList (by decide) (by decide)
      rfl rfl rfl).2.1,
   ((persistHook_spec _ _ _ _ _).2.1 (by decide) rfl (Or.inl rfl)).2.1,
   (persistHook_spec _ _ _ _ _).1 rfl⟩
